import Mathlib

/-!
Verification of the snack-sdk session core (`src/SnackSession.js`) against its
natural-language specification.

The JavaScript source is shallowly embedded: the session state is an explicit
record, JS objects are association lists in insertion order, async methods
become pure state-passing functions, and the external collaborators
(object store, package bundler, feature table, AST utilities — all of which
live outside `src/`) are oracles supplied as explicit arguments or are
modelled from the spec, as marked on each definition.
-/

set_option maxHeartbeats 1000000

namespace Snack

/-! ## JavaScript objects as association lists

A JS object is a list of key/value pairs in insertion order with unique keys.
`set` overwrites the first matching key in place (JS keeps the original
position of an existing key) and appends a fresh key at the end.
-/

abbrev Obj (α : Type) := List (String × α)

namespace Obj

def lookup {α : Type} : Obj α → String → Option α
  | [], _ => none
  | (k', v) :: rest, k => if k' = k then some v else lookup rest k

def hasKey {α : Type} (m : Obj α) (k : String) : Bool :=
  (Obj.lookup m k).isSome

def set {α : Type} : Obj α → String → α → Obj α
  | [], k, v => [(k, v)]
  | (k', v') :: rest, k, v =>
    if k' = k then (k, v) :: rest else (k', v') :: set rest k v

def keys {α : Type} (m : Obj α) : List String := m.map (·.1)

/-- The JS object spread of two objects and `Object.assign(a, b)`: entries of
`b` overwrite entries of `a`, fresh keys of `b` are appended. -/
def merge {α : Type} (a b : Obj α) : Obj α :=
  b.foldl (fun acc kv => Obj.set acc kv.1 kv.2) a

@[simp] theorem lookup_nil {α : Type} (k : String) : Obj.lookup ([] : Obj α) k = none := rfl

theorem lookup_cons {α : Type} (k' k : String) (v : α) (rest : Obj α) :
    Obj.lookup ((k', v) :: rest) k = if k' = k then some v else Obj.lookup rest k := rfl

theorem lookup_set_self {α : Type} (m : Obj α) (k : String) (v : α) :
    Obj.lookup (Obj.set m k v) k = some v := by
  induction m with
  | nil => simp [Obj.set, Obj.lookup]
  | cons hd tl ih =>
    obtain ⟨k', v'⟩ := hd
    by_cases h : k' = k
    · simp [Obj.set, h, Obj.lookup]
    · simp [Obj.set, h, Obj.lookup, ih]

theorem lookup_set_ne {α : Type} (m : Obj α) (k k' : String) (v : α) (h : k ≠ k') :
    Obj.lookup (Obj.set m k v) k' = Obj.lookup m k' := by
  induction m with
  | nil => simp [Obj.set, Obj.lookup, h]
  | cons hd tl ih =>
    obtain ⟨k₀, v₀⟩ := hd
    by_cases h₀ : k₀ = k
    · subst h₀; simp [Obj.set, Obj.lookup, h]
    · simp [Obj.set, h₀, Obj.lookup, ih]

theorem hasKey_set {α : Type} (m : Obj α) (k k' : String) (v : α) :
    Obj.hasKey (Obj.set m k v) k' = (decide (k = k') || Obj.hasKey m k') := by
  by_cases h : k = k'
  · subst h; simp [Obj.hasKey, lookup_set_self]
  · simp [Obj.hasKey, lookup_set_ne m k k' v h, h]

theorem hasKey_merge {α : Type} (a b : Obj α) (k : String) :
    Obj.hasKey (Obj.merge a b) k = (Obj.hasKey a k || Obj.hasKey b k) := by
  induction b generalizing a with
  | nil => simp [Obj.merge, Obj.hasKey, Obj.lookup]
  | cons hd tl ih =>
    obtain ⟨k₀, v₀⟩ := hd
    show Obj.hasKey (Obj.merge (Obj.set a k₀ v₀) tl) k = _
    rw [ih, hasKey_set]
    by_cases h : k₀ = k
    · subst h
      simp [Obj.hasKey, Obj.lookup]
    · simp [Obj.hasKey, Obj.lookup, h, Ne.symm h]

theorem lookup_eq_none_of_not_mem_keys {α : Type} (m : Obj α) (k : String)
    (h : k ∉ Obj.keys m) : Obj.lookup m k = none := by
  induction m with
  | nil => rfl
  | cons hd tl ih =>
    obtain ⟨k₀, v₀⟩ := hd
    simp only [Obj.keys, List.map_cons, List.mem_cons, not_or] at h
    have h₀ : k₀ ≠ k := fun hk => h.1 hk.symm
    simp only [Obj.lookup, h₀, if_false]
    exact ih h.2

theorem lookup_eq_some_of_mem {α : Type} (m : Obj α) (k : String) (v : α)
    (hnd : (Obj.keys m).Nodup) (hmem : (k, v) ∈ m) : Obj.lookup m k = some v := by
  induction m with
  | nil => cases hmem
  | cons hd tl ih =>
    obtain ⟨k₀, v₀⟩ := hd
    simp only [Obj.keys, List.map_cons, List.nodup_cons] at hnd
    rcases List.mem_cons.mp hmem with heq | htl
    · injection heq with h1 h2
      subst h1; subst h2
      simp [Obj.lookup]
    · have hk : k₀ ≠ k := by
        intro h
        apply hnd.1
        rw [h]
        exact List.mem_map.mpr ⟨(k, v), htl, rfl⟩
      simp only [Obj.lookup, hk, if_false]
      exact ih hnd.2 htl

theorem lookup_mem {α : Type} (m : Obj α) (k : String) (v : α)
    (h : Obj.lookup m k = some v) : (k, v) ∈ m := by
  induction m with
  | nil => cases h
  | cons hd tl ih =>
    obtain ⟨k₀, v₀⟩ := hd
    by_cases hk : k₀ = k
    · subst hk
      simp only [Obj.lookup, if_pos rfl] at h
      injection h with h'
      subst h'
      exact List.mem_cons_self _ _
    · simp only [Obj.lookup, hk, if_false] at h
      exact List.mem_cons_of_mem _ (ih h)

theorem hasKey_of_mem {α : Type} (m : Obj α) (k : String) (v : α)
    (h : (k, v) ∈ m) : Obj.hasKey m k = true := by
  induction m with
  | nil => cases h
  | cons hd tl ih =>
    obtain ⟨k₀, v₀⟩ := hd
    rcases List.mem_cons.mp h with heq | htl
    · injection heq with h1 h2
      subst h1
      simp [Obj.hasKey, Obj.lookup]
    · by_cases hk : k₀ = k
      · simp [Obj.hasKey, Obj.lookup, hk]
      · simpa [Obj.hasKey, Obj.lookup, hk] using ih htl

theorem mem_set {α : Type} (m : Obj α) (k : String) (v : α) (kv' : String × α)
    (h : kv' ∈ Obj.set m k v) : kv' ∈ m ∨ kv'.1 = k := by
  induction m with
  | nil =>
    simp only [Obj.set, List.mem_singleton] at h
    subst h
    right; rfl
  | cons hd tl ih =>
    obtain ⟨k₀, v₀⟩ := hd
    by_cases hk : k₀ = k
    · subst hk
      simp only [Obj.set, if_pos rfl] at h
      rcases List.mem_cons.mp h with heq | htl
      · subst heq; right; rfl
      · left; exact List.mem_cons_of_mem _ htl
    · simp only [Obj.set, hk, if_false] at h
      rcases List.mem_cons.mp h with heq | htl
      · subst heq; left; exact List.mem_cons_self _ _
      · rcases ih htl with hm | hkk
        · left; exact List.mem_cons_of_mem _ hm
        · right; exact hkk

theorem hasKey_iff_mem_keys {α : Type} (m : Obj α) (k : String) :
    Obj.hasKey m k = true ↔ k ∈ Obj.keys m := by
  constructor
  · intro h
    unfold Obj.hasKey at h
    cases hl : Obj.lookup m k with
    | none => rw [hl] at h; cases h
    | some v =>
      exact List.mem_map.mpr ⟨(k, v), lookup_mem m k v hl, rfl⟩
  · intro h
    rcases List.mem_map.mp h with ⟨⟨k', v⟩, hmem, hk⟩
    simp only at hk
    subst hk
    exact hasKey_of_mem m _ v hmem

theorem hasKey_eq_of_keys_eq {α : Type} (m m' : Obj α) (k : String)
    (h : Obj.keys m = Obj.keys m') : Obj.hasKey m k = Obj.hasKey m' k := by
  by_cases hk : k ∈ Obj.keys m
  · rw [(hasKey_iff_mem_keys m k).mpr hk, (hasKey_iff_mem_keys m' k).mpr (h ▸ hk)]
  · have hk' : k ∉ Obj.keys m' := h ▸ hk
    cases hm : Obj.hasKey m k with
    | true => exact absurd ((hasKey_iff_mem_keys m k).mp hm) hk
    | false =>
      cases hm' : Obj.hasKey m' k with
      | true => exact absurd ((hasKey_iff_mem_keys m' k).mp hm') hk'
      | false => rfl

theorem lookup_filter {α : Type} (m : Obj α) (p : String → Bool) (k : String) :
    Obj.lookup (m.filter (fun kv => p kv.1)) k =
      if p k then Obj.lookup m k else none := by
  induction m with
  | nil => simp
  | cons hd tl ih =>
    obtain ⟨k₀, v₀⟩ := hd
    by_cases hk : k₀ = k
    · subst hk
      cases hp : p k₀ with
      | true => simp [List.filter, hp, Obj.lookup, ih]
      | false => simp [List.filter, hp, Obj.lookup, ih]
    · cases hp : p k₀ with
      | true => simp [List.filter, hp, Obj.lookup, hk, ih]
      | false => simp [List.filter, hp, Obj.lookup, hk, ih]

end Obj

/-! ## Core data model -/

/-- A file's contents: `str` for source text / already-uploaded URLs, `blob`
for a binary blob handle (JS `typeof contents === 'object'`), identified by
an opaque handle number. -/
inductive Contents where
  | str (s : String)
  | blob (handle : Nat)
deriving DecidableEq, Repr

inductive FType where
  | code
  | asset
deriving DecidableEq, Repr

/-- A file entry. `oid` models JavaScript object identity: two `SFile` values
denote the same JS object exactly when their `oid`s agree (the source compares
files with `!==`, i.e. by reference). Mutating a field keeps the `oid`. -/
structure SFile where
  oid : Nat
  ftype : FType
  contents : Contents
deriving DecidableEq, Repr

/-- Capability flags consumed by the core (spec section 4.1). -/
inductive Feature where
  | multipleFiles
  | arbitraryImports
deriving DecidableEq, Repr

/-- Snapshot stored in `initialState` (`cloneDeep` drops object identity,
so files are recorded as bare type/contents pairs). -/
structure InitState where
  files : Obj (FType × Contents)
  name : Option String
  description : Option String
  dependencies : Obj String
  sdkVersion : String
deriving DecidableEq, Repr

/-- The session state owned by `SnackSession`. Logging configuration
(`isVerbose`), the pubnub handle and the started flag do not influence any
modelled behaviour and are omitted. -/
structure Session where
  files : Obj SFile
  s3code : Obj Contents
  diff : Obj String
  s3url : Obj String
  sdkVersion : String
  channel : String
  name : Option String
  description : Option String
  dependencies : Obj String
  initialState : InitState
  isResolving : Bool
  loadingMessage : Option String
deriving Repr

/-- Result of one settled `_maybeFetchDependencyAsync` call: the bundler's
terminal record (or the CDN-probe / error-pin fallback record, which carries
the requested name). `dependencies` is the peer-dependency map, `[]` when the
response had none. -/
structure FetchResult where
  name : String
  version : String
  dependencies : Obj String
deriving Repr

/-- Oracles for the external collaborators of `SnackSession`: the feature
table (`configs/sdkVersions`), the object store (`sendFileUtils`), the import
scanner and version writer (`utils/findAndWriteDependencyVersions`), the
recast/insertImport rewrite phase and the settled dependency fetches. All of
these live outside `src/`; uploads always succeed (the object store is
reachable), `scan` and `rewrite` may fail like their JS counterparts throw. -/
structure Env where
  sdkSupports : String → Feature → Bool
  uploadAsset : Nat → String
  uploadCode : String → String
  scan : String → Except String (Obj (Option String))
  fetchDep : String → Option String → FetchResult
  rewrite : String → List String → Obj String → Except String String

def MIN_CHANNEL_LENGTH : Nat := 6
def MAX_PUBNUB_SIZE : Nat := 31500
def S3_BUCKET_URL : String := "https://snack-code-uploads"

/-! ## C2: bundler fetch loop (`_tryFetchDependencyAsync`) -/

/-- One HTTP response of the bundler endpoint: status 200 with a JSON body
(whose `pending` flag drives re-polling), or a non-200 status whose body text
is thrown. -/
inductive BundlerResp where
  | ok (pending : Bool) (result : FetchResult)
  | httpError (body : String)

/-- The polling loop of `_tryFetchDependencyAsync`, fetch results supplied by
the oracle `resp` indexed by attempt number. Returns the terminal body or the
thrown error, paired with the number of fetches performed. `count` mirrors
the JS counter: it is checked against 30 at the top of each iteration and
equals the number of fetches already performed. -/
def tryFetchGo (resp : Nat → BundlerResp) (count : Nat) :
    Except String FetchResult × Nat :=
  if 30 < count then (.error "Request timed out", 0)
  else
    match resp count with
    | .httpError body => (.error body, 1)
    | .ok pending result =>
      if pending then
        let r := tryFetchGo resp (count + 1)
        (r.1, r.2 + 1)
      else (.ok result, 1)
termination_by 31 - count
decreasing_by simp_wf; omega

def tryFetchDependency (resp : Nat → BundlerResp) : Except String FetchResult × Nat :=
  tryFetchGo resp 0

theorem tryFetchGo_attempts_le (resp : Nat → BundlerResp) (count : Nat) :
    (tryFetchGo resp count).2 ≤ 31 - count := by
  suffices haux : ∀ gas c, 31 - c ≤ gas → (tryFetchGo resp c).2 ≤ 31 - c from
    haux (31 - count) count le_rfl
  intro gas
  induction gas with
  | zero =>
    intro c hc
    rw [tryFetchGo]
    simp [show 30 < c by omega]
  | succ gas ih =>
    intro c hc
    rw [tryFetchGo]
    by_cases h30 : 30 < c
    · simp [h30]
    · simp only [h30, if_false]
      cases hresp : resp c with
      | httpError body => simp; omega
      | ok pending result =>
        cases pending with
        | false => simp; omega
        | true =>
          simp only [if_true]
          have hrec := ih (c + 1) (by omega)
          show (tryFetchGo resp (c + 1)).2 + 1 ≤ 31 - c
          omega

theorem tryFetchGo_timeout (resp : Nat → BundlerResp) (count : Nat)
    (hp : ∀ j, ∃ r, resp j = .ok true r) :
    tryFetchGo resp count = (.error "Request timed out", 31 - count) := by
  suffices haux : ∀ gas c, 31 - c ≤ gas →
      tryFetchGo resp c = (.error "Request timed out", 31 - c) from
    haux (31 - count) count le_rfl
  intro gas
  induction gas with
  | zero =>
    intro c hc
    rw [tryFetchGo]
    simp [show 30 < c by omega]
    omega
  | succ gas ih =>
    intro c hc
    rw [tryFetchGo]
    by_cases h30 : 30 < c
    · simp [h30]; omega
    · obtain ⟨r, hr⟩ := hp c
      simp only [h30, if_false, hr, if_true]
      rw [ih (c + 1) (by omega)]
      show (Except.error "Request timed out", 31 - (c + 1) + 1) =
        ((Except.error "Request timed out" : Except String FetchResult), 31 - c)
      have h31 : 31 - (c + 1) + 1 = 31 - c := by omega
      rw [h31]

theorem tryFetchGo_first_terminal (resp : Nat → BundlerResp) (count k : Nat)
    (hk : k ≤ 30) (hck : count ≤ k)
    (hterm : ∃ r, resp k = .ok false r)
    (hpend : ∀ j, j < k → ∃ r, resp j = .ok true r) :
    ∃ r, resp k = .ok false r ∧ tryFetchGo resp count = (.ok r, k + 1 - count) := by
  obtain ⟨r, hr⟩ := hterm
  refine ⟨r, hr, ?_⟩
  suffices haux : ∀ gas c, k - c ≤ gas → c ≤ k →
      tryFetchGo resp c = (.ok r, k + 1 - c) from
    haux (k - count) count le_rfl hck
  intro gas
  induction gas with
  | zero =>
    intro c hc hck'
    have hck2 : c = k := by omega
    subst hck2
    rw [tryFetchGo]
    simp [show ¬30 < c by omega, hr]
  | succ gas ih =>
    intro c hc hck'
    rcases Nat.lt_or_ge c k with hlt | hge
    · obtain ⟨r', hr'⟩ := hpend c hlt
      rw [tryFetchGo]
      simp only [show ¬30 < c by omega, if_false, hr', if_true]
      rw [ih (c + 1) (by omega) (by omega)]
      show ((Except.ok r : Except String FetchResult), k + 1 - (c + 1) + 1) = (Except.ok r, k + 1 - c)
      have h31 : k + 1 - (c + 1) + 1 = k + 1 - c := by omega
      rw [h31]
    · have hck2 : c = k := le_antisymm hck' hge
      subst hck2
      rw [tryFetchGo]
      simp [show ¬30 < c by omega, hr]

/-! ## C6: import scanner (`findModuleDependencies`)

Modelled from the spec: the implementation in
`utils/findAndWriteDependencyVersions` is not under `src/` (only its test
file is), so the scanner is modelled from spec section 4.3 at the level of
parsed statements. A statement is a recognized static import declaration, an
export-from declaration, a `require(...)` call (with its argument list), or
anything else; the trailing `// <semver>` comment is carried as an optional
semver string.
-/

/-- A piece of a template literal: a literal chunk or an interpolation hole. -/
inductive TemplatePart where
  | lit (s : String)
  | interp
deriving DecidableEq, Repr

/-- An argument of a `require(...)` call. -/
inductive JsArg where
  | strLit (s : String)
  | template (parts : List TemplatePart)
  | numLit (n : Int)
  | ident (nm : String)
  | otherExpr
deriving DecidableEq, Repr

/-- A top-level statement as far as the scanner is concerned. All static
shapes of an import (default, namespace, named, bare, with renaming) carry one
source specifier and are collapsed into `importDecl`; likewise all
export-from shapes into `exportFrom`. -/
inductive Stmt where
  | importDecl (specifier : String) (comment : Option String)
  | exportFrom (specifier : String) (comment : Option String)
  | requireCall (args : List JsArg) (comment : Option String)
  | otherStmt
deriving DecidableEq, Repr

/-- The character-list view of a string prefix test (JS
`String.prototype.startsWith`), structural so that concrete scans compute. -/
def strStartsWith (s pre : String) : Bool := pre.data.isPrefixOf s.data

/-- Whether the string contains a newline character. -/
def strHasNewline (s : String) : Bool := s.data.contains '\n'

/-- Modelled from the spec: a specifier is accepted unless it is relative
(leading "./" or "../"), absolute (leading "/"), or contains a newline. -/
def specOk (s : String) : Bool :=
  !(strStartsWith s "./") && !(strStartsWith s "../") && !(strStartsWith s "/") &&
    !(strHasNewline s)

/-- Modelled from the spec: a `require` argument yields a specifier only for
a plain string literal or a template literal that is a single literal chunk
with no interpolation; numbers, identifiers and other expressions yield
none. -/
def argSpecifier : JsArg → Option String
  | .strLit s => some s
  | .template [.lit s] => some s
  | .template _ => none
  | .numLit _ => none
  | .ident _ => none
  | .otherExpr => none

/-- Modelled from the spec: one scanner step over a statement. Import and
export-from specifiers, and `require` calls whose single argument is a
static string, are recorded with the trailing-comment semver (none when the
comment is absent); every other form is ignored without raising. -/
def scanStep (acc : Obj (Option String)) : Stmt → Obj (Option String)
  | .importDecl s c => if specOk s then Obj.set acc s c else acc
  | .exportFrom s c => if specOk s then Obj.set acc s c else acc
  | .requireCall args c =>
    match args with
    | [arg] =>
      match argSpecifier arg with
      | some s => if specOk s then Obj.set acc s c else acc
      | none => acc
    | _ => acc
  | .otherStmt => acc

/-- Modelled from the spec: `findModuleDependencies` maps each recognized
specifier to the semver of its trailing comment. -/
def findModuleDependencies (stmts : List Stmt) : Obj (Option String) :=
  stmts.foldl scanStep []

/-- The rejected forms named by the claim: `require` with zero or several
arguments, a numeric, identifier or interpolated-template argument, and any
form whose specifier is an absolute path or contains a newline. -/
def rejectedForm : Stmt → Bool
  | .requireCall args _ =>
    match args with
    | [] => true
    | _ :: _ :: _ => true
    | [arg] =>
      match argSpecifier arg with
      | none => true
      | some s => strStartsWith s "/" || strHasNewline s
  | .importDecl s _ => strStartsWith s "/" || strHasNewline s
  | .exportFrom s _ => strStartsWith s "/" || strHasNewline s
  | .otherStmt => false

/-- The import-scan scenario input (spec scenario 3 and the first test of
`findAndWriteDependencyVersions`). -/
def scanScenarioInput : List Stmt :=
  [ .importDecl "base64" (some "1.2.3"),
    .requireCall [.strLit "lodash/debounce"] (some "2.3.4"),
    .importDecl "react-redux" none ]

/-- The invalid-requires test input of `findAndWriteDependencyVersions`:
`require()`, `require('debounce', null)`, interpolated and multi-line
template arguments, an absolute path, a specifier with a newline, and a
numeric argument. -/
def invalidRequiresInput : List Stmt :=
  [ .requireCall [] none,
    .requireCall [.strLit "debounce", .otherExpr] (some "2.3.4"),
    .requireCall [.template [.interp]] none,
    .requireCall [.template [.lit "left-", .interp]] none,
    .requireCall [.strLit "/core"] none,
    .requireCall [.strLit "promise\nme"] none,
    .requireCall [.template [.lit "blue\n      bird\n    "]] none,
    .requireCall [.numLit 10] none ]

/-! ## C3: listener dispatch (`_sendErrorEvent` and friends)

The listener arrays are dispatched with `Array.prototype.forEach`, whose
iteration bound is captured once at the start, while `remove` handles use
lodash `pull`, which splices matching elements out of the live array. A
listener is identified by `lid` (its JS object identity) and, when invoked,
removes the listeners named in `removes` from the array it lives in.
-/

structure Listener where
  lid : Nat
  removes : List Nat
deriving DecidableEq, Repr

/-- Lodash `pull`: remove every element of the array whose identity is in
`ids`, in place. -/
def pullIds (arr : List Listener) (ids : List Nat) : List Listener :=
  arr.filter (fun l => !(ids.contains l.lid))

/-- `Array.prototype.forEach` with callbacks that mutate the array through
`pull`: the bound `len` is captured at entry, the element at each index is
read from the live array, and indices past the live length are skipped. The
result is the list of invoked listener identities in invocation order. -/
def dispatchGo (arr : List Listener) (k : Nat) : Nat → List Nat
  | 0 => []
  | gas + 1 =>
    match arr[k]? with
    | some l => l.lid :: dispatchGo (pullIds arr l.removes) (k + 1) gas
    | none => dispatchGo arr (k + 1) gas

/-- One dispatch over a listener array (`this.errorListeners.forEach(...)`
and the log/presence/state variants are all this shape). -/
def dispatch (arr : List Listener) : List Nat :=
  dispatchGo arr 0 arr.length

theorem dispatchGo_succ (arr : List Listener) (k gas : Nat) :
    dispatchGo arr k (gas + 1) =
      match arr[k]? with
      | some l => l.lid :: dispatchGo (pullIds arr l.removes) (k + 1) gas
      | none => dispatchGo arr (k + 1) gas := rfl

theorem dispatchGo_no_removals (gas : Nat) :
    ∀ (arr : List Listener) (k : Nat), (∀ l ∈ arr, l.removes = []) →
      dispatchGo arr k gas = (((arr.drop k).map (·.lid)).take gas) := by
  induction gas with
  | zero => intro arr k h; rfl
  | succ gas ih =>
    intro arr k h
    cases hget : arr[k]? with
    | some l =>
      have hk : k < arr.length := by
        by_contra hk
        rw [List.getElem?_eq_none (by omega)] at hget
        cases hget
      have hdrop : arr.drop k = l :: arr.drop (k + 1) := by
        obtain ⟨h3, h4⟩ := List.getElem?_eq_some.mp hget
        rw [List.drop_eq_getElem_cons h3, h4]
      have hpull : pullIds arr l.removes = arr := by
        unfold pullIds
        apply List.filter_eq_self.mpr
        intro a ha
        have hla : l ∈ arr := by
          have hsub : l ∈ arr.drop k := by
            rw [hdrop]
            exact List.mem_cons_self _ _
          exact List.mem_of_mem_drop hsub
        rw [h l hla]
        simp
      rw [dispatchGo_succ, hget]
      show l.lid :: dispatchGo (pullIds arr l.removes) (k + 1) gas = _
      rw [hpull, ih arr (k + 1) h, hdrop]
      simp
    | none =>
      have hk : arr.length ≤ k := by
        by_contra hk
        rw [List.getElem?_eq_getElem (by omega)] at hget
        cases hget
      have hdrop : arr.drop k = [] := List.drop_eq_nil_of_le hk
      have hdrop1 : arr.drop (k + 1) = [] := List.drop_eq_nil_of_le (by omega)
      rw [dispatchGo_succ, hget]
      show dispatchGo arr (k + 1) gas = _
      rw [ih arr (k + 1) h, hdrop, hdrop1]
      simp

theorem sublist_tail_mono {α : Type} {s t : List α} (h : s.Sublist t) :
    s.tail.Sublist t.tail := List.Sublist.tail h

theorem sublist_drop_mono {α : Type} {s t : List α} (h : s.Sublist t) (n : Nat) :
    (s.drop n).Sublist (t.drop n) := by
  induction n generalizing s t with
  | zero => exact h
  | succ n ih =>
    rw [← List.tail_drop, ← List.tail_drop]
    exact sublist_tail_mono (ih h)

theorem dispatchGo_sublist (gas : Nat) :
    ∀ (arr : List Listener) (k : Nat),
      (dispatchGo arr k gas).Sublist ((arr.drop k).map (·.lid)) := by
  induction gas with
  | zero => intro arr k; exact List.nil_sublist _
  | succ gas ih =>
    intro arr k
    cases hget : arr[k]? with
    | some l =>
      have hk : k < arr.length := by
        by_contra hk
        rw [List.getElem?_eq_none (by omega)] at hget
        cases hget
      have hdrop : arr.drop k = l :: arr.drop (k + 1) := by
        obtain ⟨h3, h4⟩ := List.getElem?_eq_some.mp hget
        rw [List.drop_eq_getElem_cons h3, h4]
      rw [dispatchGo_succ, hget]
      show (l.lid :: dispatchGo (pullIds arr l.removes) (k + 1) gas).Sublist _
      rw [hdrop]
      simp only [List.map_cons]
      apply List.Sublist.cons₂
      have h1 := ih (pullIds arr l.removes) (k + 1)
      have h2 : (pullIds arr l.removes).Sublist arr := List.filter_sublist _
      have h3 := sublist_drop_mono h2 (k + 1)
      exact h1.trans (List.Sublist.map _ h3)
    | none =>
      rw [dispatchGo_succ, hget]
      show (dispatchGo arr (k + 1) gas).Sublist _
      have h1 := ih arr (k + 1)
      have h2 : (arr.drop (k + 1)).Sublist (arr.drop k) := by
        rw [← List.tail_drop]
        exact List.tail_sublist _
      exact h1.trans (List.Sublist.map _ h2)

/-! ## C1: snapshot construction and spill loop
(`_uploadHelper` and `_handleUploadCodeAsync`)

`sendFileUtils` is not under `src/`; its two pure helpers are modelled from
the spec: the patch format is opaque (only lengths matter here), and the size
estimator charges for the channel id, both maps and a constant envelope
overhead.
-/

/-- The `diff`/`s3url`/`s3code` publication ledger fields of the session. -/
structure Ledger where
  s3code : Obj Contents
  diff : Obj String
  s3url : Obj String
deriving Repr

/-- Modelled from the spec: the patch format of `sendFileUtils.getFileDiff`
is opaque; a patch against the empty string is the contents itself, which is
all the spill computation observes (only the patch length feeds the size
estimate). -/
def getFileDiff (_prev next : String) : String := next

/-- Bytes charged by the transport for one JSON map: per entry the key, the
value and a constant quoting/punctuation overhead, plus the enclosing
braces. -/
def objJsonSize (m : Obj String) : Nat :=
  m.foldl (fun n kv => n + kv.1.length + kv.2.length + 6) 2

/-- Modelled from the spec: `sendFileUtils.calcPayloadSize(channel, payload)`
estimates the bytes the transport will charge for publishing the channel id
together with the `{diff, s3url}` payload, including a constant envelope
overhead. -/
def calcPayloadSize (channel : String) (diff s3url : Obj String) : Nat :=
  channel.length + objJsonSize diff + objJsonSize s3url + 100

/-- When a blob lands where the source expects a string (reading `s3code` as
diff anchor, or uploading blob contents through `uploadCodeToS3`), the string
view is empty. -/
def contentsStr : Contents → String
  | .str s => s
  | .blob _ => ""

/-- One iteration of `_uploadHelper` for the file at `k`: populate the
ledger (upload a blob asset, copy an already-uploaded URL, diff against the
s3 anchor when one exists, else diff against the empty string) and record
the `{name, size}` entry pushed onto `fileSize`. -/
def uploadHelperStep (env : Env) (led : Ledger) (k : String) (f : SFile) :
    Ledger × (String × Nat) :=
  match f.contents with
  | .blob b =>
    (⟨Obj.set led.s3code k (.blob b), Obj.set led.diff k "",
      Obj.set led.s3url k (env.uploadAsset b)⟩, (k, 0))
  | .str c =>
    if c.startsWith S3_BUCKET_URL then
      (⟨Obj.set led.s3code k (.str c), Obj.set led.diff k "",
        Obj.set led.s3url k c⟩, (k, 0))
    else if (Obj.lookup led.s3url k).isSome then
      let d := getFileDiff (contentsStr ((Obj.lookup led.s3code k).getD (.str ""))) c
      ({ led with diff := Obj.set led.diff k d }, (k, d.length))
    else
      let d := getFileDiff "" c
      ({ led with diff := Obj.set led.diff k d }, (k, d.length))

/-- `_uploadHelper`: turn `files` into `diff`, `s3url` and `s3code`, and
collect the `fileSize` entries. -/
def uploadHelper (env : Env) (led : Ledger) :
    List (String × SFile) → Ledger × List (String × Nat)
  | [] => (led, [])
  | (k, f) :: rest =>
    let step := uploadHelperStep env led k f
    let next := uploadHelper env step.1 rest
    (next.1, step.2 :: next.2)

/-- Stable insertion sort ascending by recorded size, modelling
`fileSize.sort((a, b) => a.size - b.size)` (tie-breaking is unspecified in
the spec; any deterministic order is acceptable). -/
def insertBySize (x : String × Nat) : List (String × Nat) → List (String × Nat)
  | [] => [x]
  | y :: ys => if x.2 ≤ y.2 then x :: y :: ys else y :: insertBySize x ys

def sortBySize : List (String × Nat) → List (String × Nat)
  | [] => []
  | x :: xs => insertBySize x (sortBySize xs)

/-- The spill loop of `_handleUploadCodeAsync`. The JS sorts `fileSize`
ascending and pops from the end, so the candidate list here is in descending
size order and is consumed from the head; while the payload estimate exceeds
`MAX_PUBNUB_SIZE` and candidates remain, the largest remaining file is spilled
(its contents cached in `s3code`, its diff blanked, its upload URL recorded)
and the estimate recomputed. Returns the final ledger and the candidates not
spilled. -/
def spillGo (env : Env) (channel : String) (files : Obj SFile) :
    List (String × Nat) → Ledger → Ledger × List (String × Nat)
  | [], led => (led, [])
  | (k, n) :: rest, led =>
    if calcPayloadSize channel led.diff led.s3url > MAX_PUBNUB_SIZE then
      let contents := ((Obj.lookup files k).map (·.contents)).getD (.str "")
      let led' : Ledger :=
        ⟨Obj.set led.s3code k contents, Obj.set led.diff k "",
          Obj.set led.s3url k (env.uploadCode (contentsStr contents))⟩
      spillGo env channel files rest led'
    else (led, (k, n) :: rest)

/-- `_handleUploadCodeAsync`: build the ledger via `_uploadHelper`, then, if
the payload estimate exceeds the transport bound, spill largest-first until
the estimate is within the bound or no candidates remain. -/
def handleUploadCodeCore (env : Env) (channel : String) (files : Obj SFile)
    (led : Ledger) : Ledger × List (String × Nat) :=
  let built := uploadHelper env led files
  spillGo env channel files (sortBySize built.2).reverse built.1

def handleUploadCode (env : Env) (s : Session) : Session :=
  let core := handleUploadCodeCore env s.channel s.files ⟨s.s3code, s.diff, s.s3url⟩
  { s with s3code := core.1.s3code, diff := core.1.diff, s3url := core.1.s3url }

theorem spillGo_post (env : Env) (channel : String) (files : Obj SFile) :
    ∀ (cands : List (String × Nat)) (led : Ledger),
      (spillGo env channel files cands led).2 = [] ∨
        calcPayloadSize channel (spillGo env channel files cands led).1.diff
          (spillGo env channel files cands led).1.s3url ≤ MAX_PUBNUB_SIZE := by
  intro cands
  induction cands with
  | nil => intro led; left; rfl
  | cons hd rest ih =>
    intro led
    obtain ⟨k, n⟩ := hd
    by_cases hsz : calcPayloadSize channel led.diff led.s3url > MAX_PUBNUB_SIZE
    · simp only [spillGo, hsz, if_true]
      exact ih _
    · simp only [spillGo, hsz, if_false]
      right
      omega

theorem calcPayloadSize_ge_channel (channel : String) (diff s3url : Obj String) :
    channel.length ≤ calcPayloadSize channel diff s3url := by
  unfold calcPayloadSize
  omega

/-! ## C4: `_isSaved`, the constructor snapshot and `saveAsync` -/

/-- Lodash `isEqual` on two JS objects: same key set and deeply equal values
(key order and object identity are ignored). -/
def objEqBy {α : Type} (eqv : α → α → Bool) (a b : Obj α) : Bool :=
  a.all (fun kv => Obj.hasKey b kv.1) &&
  b.all (fun kv => Obj.hasKey a kv.1) &&
  a.all (fun kv =>
    match Obj.lookup b kv.1 with
    | some w => eqv kv.2 w
    | none => false)

/-- `cloneDeep` of the file map: object identity is not part of the deep
value, so the snapshot records bare type/contents pairs. -/
def stripIds (files : Obj SFile) : Obj (FType × Contents) :=
  files.map (fun kv => (kv.1, (kv.2.ftype, kv.2.contents)))

/-- Lodash `isEqual` on the `initialState` shape. -/
def isEqualState (a b : InitState) : Bool :=
  objEqBy (fun x y => decide (x = y)) a.files b.files &&
  decide (a.name = b.name) &&
  decide (a.description = b.description) &&
  objEqBy (fun x y => decide (x = y)) a.dependencies b.dependencies &&
  decide (a.sdkVersion = b.sdkVersion)

/-- The current metadata tuple compared against `initialState`. -/
def currentTuple (s : Session) : InitState :=
  ⟨stripIds s.files, s.name, s.description, s.dependencies, s.sdkVersion⟩

/-- `_isSaved`: lodash `isEqual` of `initialState` against the current
`{files, name, description, dependencies, sdkVersion}`. -/
def isSaved (s : Session) : Bool :=
  isEqualState s.initialState (currentTuple s)

/-- Construction options (`ExpoSnackSessionArguments`); `freshId` stands for
the `shortid.generate()` call used when `sessionId` is absent. -/
structure Options where
  files : Obj SFile
  sdkVersion : Option String
  verbose : Bool
  sessionId : Option String
  snackId : Option String
  name : Option String
  description : Option String
  dependencies : Option (Obj String)
  authorizationToken : Option String

def defaultSDKVersion : String := "15.0.0"

/-- The `SnackSession` constructor: initialize the state, snapshot
`initialState` with `cloneDeep`, and raise when the channel id is shorter
than `MIN_CHANNEL_LENGTH`. The fire-and-forget kick of
`_handleFindDependenciesAsync` (when `ARBITRARY_IMPORTS` is supported) and
the pubnub listener wiring happen asynchronously and do not affect the state
returned to the caller; they are modelled by later calls of
`handleFindDependencies`. -/
def construct (opts : Options) (freshId : String) : Except String Session :=
  let channel := opts.sessionId.getD freshId
  let sdkVersion := opts.sdkVersion.getD defaultSDKVersion
  let deps := opts.dependencies.getD []
  let s : Session :=
    { files := opts.files
      s3code := []
      diff := []
      s3url := []
      sdkVersion := sdkVersion
      channel := channel
      name := opts.name
      description := opts.description
      dependencies := deps
      initialState :=
        ⟨stripIds opts.files, opts.name, opts.description, deps, sdkVersion⟩
      isResolving := false
      loadingMessage := none }
  if channel.length < MIN_CHANNEL_LENGTH then
    .error "Please use a channel id with more entropy"
  else .ok s

/-- The successful branch of `saveAsync` (the server answered with an id):
`initialState` is re-snapshotted from the current state before returning. -/
def applySaveSuccess (s : Session) : Session :=
  { s with initialState :=
      ⟨stripIds s.files, s.name, s.description, s.dependencies, s.sdkVersion⟩ }

theorem objEqBy_refl {α : Type} (eqv : α → α → Bool) (m : Obj α)
    (hrefl : ∀ a, eqv a a = true) (hnd : (Obj.keys m).Nodup) :
    objEqBy eqv m m = true := by
  unfold objEqBy
  have hlook : ∀ kv ∈ m, Obj.lookup m kv.1 = some kv.2 := by
    intro kv hkv
    exact Obj.lookup_eq_some_of_mem m kv.1 kv.2 hnd hkv
  have hhas : ∀ kv ∈ m, Obj.hasKey m kv.1 = true := by
    intro kv hkv
    unfold Obj.hasKey
    rw [hlook kv hkv]
    rfl
  simp only [Bool.and_eq_true, List.all_eq_true]
  refine ⟨⟨fun kv hkv => hhas kv hkv, fun kv hkv => hhas kv hkv⟩, ?_⟩
  intro kv hkv
  rw [hlook kv hkv]
  exact hrefl kv.2

theorem keys_stripIds (files : Obj SFile) :
    Obj.keys (stripIds files) = Obj.keys files := by
  unfold stripIds Obj.keys
  rw [List.map_map]
  rfl

theorem isEqualState_refl (st : InitState)
    (hf : (Obj.keys st.files).Nodup) (hd : (Obj.keys st.dependencies).Nodup) :
    isEqualState st st = true := by
  unfold isEqualState
  rw [objEqBy_refl _ _ (fun a => by simp) hf,
    objEqBy_refl _ _ (fun a => by simp) hd]
  simp

/-! ## C5: `sendCodeAsync` -/

/-- Events observable on the session after an operation: the trailing
`this._publish()` (debounced) and `this._sendStateEvent()` calls. -/
inductive Effect where
  | schedulePublish
  | stateEvent
deriving DecidableEq, Repr

/-- The asset-upload step inside `sendCodeAsync`: after the assignment
`this.files[key] = files[key]`, contents of an ASSET entry that is still a
binary blob is uploaded and replaced in place by the returned URL (object
identity is preserved). -/
def uploadIfAssetBlob (env : Env) (f : SFile) : SFile :=
  if f.ftype = .asset then
    match f.contents with
    | .blob b => { f with contents := .str (env.uploadAsset b) }
    | .str _ => f
  else f

/-- One step of the second `sendCodeAsync` loop for the entry `(k, f)` of the
input map: skipped when the current entry is the same JS object
(`this.files[key] !== files[key]` is false), otherwise assigned and, for
asset blobs, uploaded. -/
def sendCodeStep (env : Env) (acc : Obj SFile) (k : String) (f : SFile) : Obj SFile :=
  match Obj.lookup acc k with
  | some g => if g.oid = f.oid then acc else Obj.set acc k (uploadIfAssetBlob env f)
  | none => Obj.set acc k (uploadIfAssetBlob env f)

/-- `sendCodeAsync(files)`: delete the keys that are no longer present, then
add or update each entry of the input map (uploading asset blobs inline),
then schedule the debounced publish and emit a state event. -/
def sendCode (env : Env) (s : Session) (files : Obj SFile) : Session × List Effect :=
  let trimmed := s.files.filter (fun kv => Obj.hasKey files kv.1)
  let newFiles := files.foldl (fun acc kv => sendCodeStep env acc kv.1 kv.2) trimmed
  ({ s with files := newFiles }, [.schedulePublish, .stateEvent])

theorem lookup_sendCodeStep_ne (env : Env) (acc : Obj SFile) (k₀ : String)
    (f₀ : SFile) (k : String) (h : k₀ ≠ k) :
    Obj.lookup (sendCodeStep env acc k₀ f₀) k = Obj.lookup acc k := by
  unfold sendCodeStep
  cases hl : Obj.lookup acc k₀ with
  | none => exact Obj.lookup_set_ne acc k₀ k _ h
  | some g =>
    by_cases ho : g.oid = f₀.oid
    · simp [ho]
    · simp only [ho, if_false]
      exact Obj.lookup_set_ne acc k₀ k _ h

/-- The value of each key after the add-or-update loop of `sendCodeAsync`:
a key absent from the input map keeps the accumulator's entry; a key present
with entry `f` keeps the old object when it is reference-equal to `f` and is
otherwise overwritten by `f` with asset blobs uploaded. -/
theorem sendCode_fold_lookup (env : Env) (l : Obj SFile)
    (hnd : (Obj.keys l).Nodup) :
    ∀ (acc : Obj SFile) (k : String),
      Obj.lookup (l.foldl (fun acc kv => sendCodeStep env acc kv.1 kv.2) acc) k =
        match Obj.lookup l k with
        | none => Obj.lookup acc k
        | some f =>
          match Obj.lookup acc k with
          | some g => if g.oid = f.oid then some g else some (uploadIfAssetBlob env f)
          | none => some (uploadIfAssetBlob env f) := by
  induction l with
  | nil => intro acc k; rfl
  | cons hd rest ih =>
    intro acc k
    obtain ⟨k₀, f₀⟩ := hd
    simp only [Obj.keys, List.map_cons, List.nodup_cons] at hnd
    show Obj.lookup (rest.foldl (fun acc kv => sendCodeStep env acc kv.1 kv.2)
      (sendCodeStep env acc k₀ f₀)) k = _
    rw [ih hnd.2]
    by_cases hk : k₀ = k
    · subst hk
      have hrest : Obj.lookup rest k₀ = none := by
        apply Obj.lookup_eq_none_of_not_mem_keys
        intro hmem
        rcases List.mem_map.mp hmem with ⟨kv, hkv, hk1⟩
        exact hnd.1 (List.mem_map.mpr ⟨kv, hkv, hk1⟩)
      rw [hrest]
      show Obj.lookup (sendCodeStep env acc k₀ f₀) k₀ = _
      unfold sendCodeStep
      rw [Obj.lookup_cons]
      rw [if_pos rfl]
      cases hl : Obj.lookup acc k₀ with
      | none => exact Obj.lookup_set_self acc k₀ _
      | some g =>
        by_cases ho : g.oid = f₀.oid
        · simp [ho, hl]
        · simp only [ho, if_false]
          rw [Obj.lookup_set_self]
    · rw [Obj.lookup_cons, if_neg hk,
        lookup_sendCodeStep_ne env acc k₀ f₀ k hk]


/-! ## C7/C9: the dependency engine
(`_findDependenciesOnceAsync` and `_handleFindDependenciesAsync`) -/

def reservedModules : List String := ["react", "react-native", "expo"]

/-- The part of the session state read and written by
`_findDependenciesOnceAsync`. -/
structure EngSt where
  dependencies : Obj String
  loadingMessage : Option String
deriving Repr

/-- The nested `results.map`/`forEach` collecting peer dependencies from the
fetch results, skipping reserved names. -/
def collectPeers (results : List FetchResult) : Obj String :=
  results.foldl
    (fun acc r =>
      r.dependencies.foldl
        (fun acc2 kv =>
          if reservedModules.contains kv.1 then acc2 else Obj.set acc2 kv.1 kv.2)
        acc)
    []

/-- The `pickBy` filter of the scanned modules: local (leading dot) and
reserved specifiers are dropped. -/
def scanFilter (raw : Obj (Option String)) : Obj (Option String) :=
  raw.filter (fun kv => !(kv.1.startsWith ".") && !(reservedModules.contains kv.1))

/-- The `changedModules` filter: modules absent from `this.dependencies` or
recorded with a different version. -/
def changedModules (deps : Obj String) (modules : Obj (Option String)) :
    Obj (Option String) :=
  modules.filter (fun kv =>
    match Obj.lookup deps kv.1 with
    | none => true
    | some dv => kv.2 ≠ some dv)

/-- The direct fetch results, one per scanned module. -/
def engineResults (env : Env) (modules : Obj (Option String)) : List FetchResult :=
  modules.map (fun kv => env.fetchDep kv.1 kv.2)

/-- The filtered peer-dependency map collected from the direct results. -/
def enginePeerDeps (env : Env) (modules : Obj (Option String)) : Obj String :=
  collectPeers (engineResults env modules)

/-- The peer fetch results (the `peerDependencies` variable after its
reassignment to the awaited fetches). -/
def enginePeerResults (env : Env) (modules : Obj (Option String)) : List FetchResult :=
  (enginePeerDeps env modules).map (fun kv => env.fetchDep kv.1 (some kv.2))

/-- The pin set: peer results first, then direct results, the latter winning
on collision, keyed by the `name` field of each fetched record. -/
def enginePins (env : Env) (modules : Obj (Option String)) : Obj String :=
  (engineResults env modules).foldl (fun acc r => Obj.set acc r.name r.version)
    ((enginePeerResults env modules).foldl
      (fun acc r => Obj.set acc r.name r.version) [])

/-- `_findDependenciesOnceAsync(file)`: scan the file, filter local and
reserved modules, stop early when nothing changed, set the loading message,
fetch every module, merge filtered peer dependencies into
`this.dependencies`, fetch the peers, build the pin set (direct results
winning over peers), rewrite the code (insert peer imports, write version
comments) and commit the pin set with `Object.assign`. A scan failure or a
rewrite failure is caught; in the latter case the peer merge has already been
committed and the loading message stays set (the outer `finally` clears it).
Returns the new engine state and the rewritten code when a rewrite
happened. -/
def findDependenciesOnce (env : Env) (file : String) (st : EngSt) :
    EngSt × Option String :=
  match env.scan file with
  | .error _ => (st, none)
  | .ok raw =>
    let modules := scanFilter raw
    if modules.isEmpty || (changedModules st.dependencies modules).isEmpty
    then (st, none)
    else
      let st2 : EngSt :=
        ⟨Obj.merge st.dependencies (enginePeerDeps env modules),
          some "Installing dependencies"⟩
      match env.rewrite file ((enginePeerResults env modules).map (·.name))
        (enginePins env modules) with
      | .error _ => (st2, none)
      | .ok code =>
        ({ st2 with
            dependencies := Obj.merge st2.dependencies (enginePins env modules) },
          some code)

/-- The `Promise.all` over `.js` files in `_handleFindDependenciesAsync`,
sequentialized: each file is scanned/rewritten with the engine state threaded
through; the race guard (contents unchanged since entry) always passes in
this single-writer model. -/
def engineFiles (env : Env) :
    List (String × SFile) → EngSt → List (String × SFile) × EngSt
  | [], st => ([], st)
  | (k, f) :: rest, st =>
    if k.endsWith ".js" then
      match f.contents with
      | .str code =>
        let step := findDependenciesOnce env code st
        let f' : SFile :=
          match step.2 with
          | some c => { f with contents := .str c }
          | none => f
        let next := engineFiles env rest step.1
        ((k, f') :: next.1, next.2)
      | .blob _ =>
        let next := engineFiles env rest st
        ((k, f) :: next.1, next.2)
    else
      let next := engineFiles env rest st
      ((k, f) :: next.1, next.2)

/-- `_handleFindDependenciesAsync`: a no-op when `ARBITRARY_IMPORTS` is not
supported or a resolution is already running; otherwise `isResolving` is set,
every `.js` file is processed, and the `finally` block clears
`loadingMessage` and releases `isResolving` on all exit paths. -/
def handleFindDependencies (env : Env) (s : Session) : Session :=
  if !(env.sdkSupports s.sdkVersion .arbitraryImports) then s
  else if s.isResolving then s
  else
    let run := engineFiles env s.files ⟨s.dependencies, s.loadingMessage⟩
    { s with files := run.1
             dependencies := run.2.dependencies
             loadingMessage := none
             isResolving := false }

/-! ## C8/C10: the undebounced publish (`_publishNotDebouncedAsync`) -/

/-- A message published on the channel. `meta` carries the
`expoSdkVersion` analytics field (environment fingerprints are IO and never
block publication). -/
inductive Envelope where
  | codeMulti (diff : Obj String) (s3url : Obj String) (meta : String)
  | codeLegacy (code : Contents) (meta : String)
  | loadingMsg (message : String)
deriving Repr

def legacyTypeError : String :=
  "TypeError: cannot read property contents of undefined"

/-- `_publishNotDebouncedAsync`: when `loadingMessage` is set, publish a
LOADING_MESSAGE envelope instead of code; otherwise run the dependency
engine when supported, return without publishing if a resolution is (still)
running, and publish either the `{diff, s3url}` map (MULTIPLE_FILES) or the
legacy single-file payload, which reads `files['app.js'].contents` without a
guard and therefore throws when the key is missing. -/
def publishNotDebounced (env : Env) (s : Session) :
    Except String (Session × Option Envelope) :=
  match s.loadingMessage with
  | some m => .ok (s, some (.loadingMsg m))
  | none =>
    let s1 := if env.sdkSupports s.sdkVersion .arbitraryImports
      then handleFindDependencies env s else s
    if s1.isResolving then .ok (s1, none)
    else if env.sdkSupports s1.sdkVersion .multipleFiles then
      let s2 := handleUploadCode env s1
      .ok (s2, some (.codeMulti s2.diff s2.s3url s2.sdkVersion))
    else
      match Obj.lookup s1.files "app.js" with
      | some f => .ok (s1, some (.codeLegacy f.contents s1.sdkVersion))
      | none => .error legacyTypeError

/-! ## Lemmas about the dependency engine -/

theorem hasKey_foldl_set {β : Type} (g : β → String) (valf : β → String)
    (l : List β) (k : String) :
    ∀ base : Obj String,
      Obj.hasKey (l.foldl (fun acc x => Obj.set acc (g x) (valf x)) base) k =
        (Obj.hasKey base k || l.any (fun x => decide (g x = k))) := by
  induction l with
  | nil => intro base; simp
  | cons hd tl ih =>
    intro base
    show Obj.hasKey (tl.foldl _ (Obj.set base (g hd) (valf hd))) k = _
    rw [ih, Obj.hasKey_set]
    simp [Bool.or_assoc, Bool.or_comm, Bool.or_left_comm]

/-- Every entry collected by the peer-dependency pass has a non-reserved
key. -/
theorem collectPeers_not_reserved (results : List FetchResult) :
    ∀ kv ∈ collectPeers results, reservedModules.contains kv.1 = false := by
  unfold collectPeers
  suffices haux : ∀ (rs : List FetchResult) (acc : Obj String),
      (∀ kv ∈ acc, reservedModules.contains kv.1 = false) →
      ∀ kv ∈ rs.foldl
        (fun acc r =>
          r.dependencies.foldl
            (fun acc2 kv =>
              if reservedModules.contains kv.1 then acc2 else Obj.set acc2 kv.1 kv.2)
            acc)
        acc, reservedModules.contains kv.1 = false by
    intro kv hkv
    exact haux results [] (by intro kv h; cases h) kv hkv
  have hinner : ∀ (deps : Obj String) (acc : Obj String),
      (∀ kv ∈ acc, reservedModules.contains kv.1 = false) →
      ∀ kv ∈ deps.foldl
        (fun acc2 kv =>
          if reservedModules.contains kv.1 then acc2 else Obj.set acc2 kv.1 kv.2)
        acc, reservedModules.contains kv.1 = false := by
    intro deps
    induction deps with
    | nil => intro acc hacc kv hkv; exact hacc kv hkv
    | cons hd tl ih =>
      intro acc hacc kv hkv
      refine ih _ ?_ kv hkv
      intro kv' hkv'
      by_cases hr : reservedModules.contains hd.1
      · simp only [hr, if_true] at hkv'
        exact hacc kv' hkv'
      · simp only [hr, if_false] at hkv'
        rcases Obj.mem_set acc hd.1 hd.2 kv' hkv' with hm | hk
        · exact hacc kv' hm
        · rw [hk]
          exact Bool.eq_false_iff.mpr hr
  intro rs
  induction rs with
  | nil => intro acc hacc kv hkv; exact hacc kv hkv
  | cons r rest ih =>
    intro acc hacc kv hkv
    exact ih _ (hinner r.dependencies acc hacc) kv hkv

theorem hasKey_collectPeers_reserved (results : List FetchResult) (r : String)
    (h : reservedModules.contains r = true) :
    Obj.hasKey (collectPeers results) r = false := by
  cases hk : Obj.hasKey (collectPeers results) r with
  | false => rfl
  | true =>
    unfold Obj.hasKey at hk
    cases hl : Obj.lookup (collectPeers results) r with
    | none => rw [hl] at hk; cases hk
    | some v =>
      have hmem := Obj.lookup_mem _ r v hl
      have := collectPeers_not_reserved results (r, v) hmem
      rw [h] at this
      cases this

/-- Keys of the pin set, when the fetched records echo the requested names:
every key is either a scanned module name or a collected peer name, so never
reserved. -/
theorem hasKey_enginePins_reserved (env : Env) (modules : Obj (Option String))
    (hmod : ∀ kv ∈ modules, reservedModules.contains kv.1 = false)
    (hecho : ∀ n v, (env.fetchDep n v).name = n)
    (r : String) (hr : reservedModules.contains r = true) :
    Obj.hasKey (enginePins env modules) r = false := by
  unfold enginePins
  rw [hasKey_foldl_set FetchResult.name FetchResult.version,
    hasKey_foldl_set FetchResult.name FetchResult.version]
  have hbase : Obj.hasKey ([] : Obj String) r = false := rfl
  have hpeerAny : (enginePeerResults env modules).any
      (fun x => decide (x.name = r)) = false := by
    rw [List.any_eq_false]
    intro x hx
    rcases List.mem_map.mp hx with ⟨kv, hkv, hkx⟩
    rw [← hkx, hecho kv.1 (some kv.2)]
    have hthis := collectPeers_not_reserved (engineResults env modules) kv hkv
    simp only [decide_eq_true_eq]
    intro hkr
    rw [hkr, hr] at hthis
    cases hthis
  have hdirAny : (engineResults env modules).any
      (fun x => decide (x.name = r)) = false := by
    rw [List.any_eq_false]
    intro x hx
    rcases List.mem_map.mp hx with ⟨kv, hkv, hkx⟩
    rw [← hkx, hecho kv.1 kv.2]
    have hthis := hmod kv hkv
    simp only [decide_eq_true_eq]
    intro hkr
    rw [hkr, hr] at hthis
    cases hthis
  rw [hbase, hpeerAny, hdirAny]
  rfl

theorem scanFilter_not_reserved (raw : Obj (Option String)) :
    ∀ kv ∈ scanFilter raw, reservedModules.contains kv.1 = false := by
  intro kv hkv
  have hthis := List.of_mem_filter hkv
  simp only [Bool.and_eq_true, Bool.not_eq_true'] at hthis
  exact hthis.2

/-- Per-file engine run: pre-existing dependency keys are preserved and no
reserved key is introduced (when fetched records echo the requested name). -/
theorem hasKey_enginePeerDeps_reserved (env : Env) (modules : Obj (Option String))
    (r : String) (hr : reservedModules.contains r = true) :
    Obj.hasKey (enginePeerDeps env modules) r = false :=
  hasKey_collectPeers_reserved (engineResults env modules) r hr

theorem findDependenciesOnce_deps (env : Env) (file : String) (st : EngSt)
    (hecho : ∀ n v, (env.fetchDep n v).name = n) :
    (∀ k, Obj.hasKey st.dependencies k = true →
        Obj.hasKey (findDependenciesOnce env file st).1.dependencies k = true)
    ∧ (∀ r, reservedModules.contains r = true →
        Obj.hasKey (findDependenciesOnce env file st).1.dependencies r = true →
        Obj.hasKey st.dependencies r = true) := by
  unfold findDependenciesOnce
  cases hscan : env.scan file with
  | error e => exact ⟨fun k hk => hk, fun r _ hk => hk⟩
  | ok raw =>
    simp only
    cases hempty : ((scanFilter raw).isEmpty ||
        (changedModules st.dependencies (scanFilter raw)).isEmpty) with
    | true =>
      rw [if_pos rfl]
      exact ⟨fun k hk => hk, fun r _ hk => hk⟩
    | false =>
      rw [if_neg (by simp)]
      have hmod := scanFilter_not_reserved raw
      cases hrw : env.rewrite file
        ((enginePeerResults env (scanFilter raw)).map (·.name))
        (enginePins env (scanFilter raw)) with
      | error e =>
        constructor
        · intro k hk
          show Obj.hasKey
            (Obj.merge st.dependencies (enginePeerDeps env (scanFilter raw))) k = true
          rw [Obj.hasKey_merge, hk]
          rfl
        · intro r hr hk
          replace hk : Obj.hasKey
            (Obj.merge st.dependencies (enginePeerDeps env (scanFilter raw))) r = true := hk
          rw [Obj.hasKey_merge,
            hasKey_enginePeerDeps_reserved env (scanFilter raw) r hr] at hk
          simpa using hk
      | ok code =>
        constructor
        · intro k hk
          show Obj.hasKey
            (Obj.merge (Obj.merge st.dependencies (enginePeerDeps env (scanFilter raw)))
              (enginePins env (scanFilter raw))) k = true
          rw [Obj.hasKey_merge, Obj.hasKey_merge, hk]
          rfl
        · intro r hr hk
          replace hk : Obj.hasKey
            (Obj.merge (Obj.merge st.dependencies (enginePeerDeps env (scanFilter raw)))
              (enginePins env (scanFilter raw))) r = true := hk
          rw [Obj.hasKey_merge, Obj.hasKey_merge,
            hasKey_enginePeerDeps_reserved env (scanFilter raw) r hr,
            hasKey_enginePins_reserved env (scanFilter raw) hmod hecho r hr] at hk
          simpa using hk

/-- The whole-session engine run preserves dependency keys and introduces no
reserved key, file by file. -/
theorem engineFiles_deps (env : Env)
    (hecho : ∀ n v, (env.fetchDep n v).name = n) :
    ∀ (l : List (String × SFile)) (st : EngSt),
      (∀ k, Obj.hasKey st.dependencies k = true →
          Obj.hasKey (engineFiles env l st).2.dependencies k = true)
      ∧ (∀ r, reservedModules.contains r = true →
          Obj.hasKey (engineFiles env l st).2.dependencies r = true →
          Obj.hasKey st.dependencies r = true) := by
  intro l
  induction l with
  | nil => intro st; exact ⟨fun k hk => hk, fun r _ hk => hk⟩
  | cons hd rest ih =>
    intro st
    obtain ⟨k₀, f₀⟩ := hd
    by_cases hjs : k₀.endsWith ".js"
    · cases hc : f₀.contents with
      | str code =>
        have hstep := findDependenciesOnce_deps env code st hecho
        have hrest := ih (findDependenciesOnce env code st).1
        constructor
        · intro k hk
          have h1 := hstep.1 k hk
          have h2 := hrest.1 k h1
          simpa [engineFiles, hjs, hc] using h2
        · intro r hr hk
          have hk' : Obj.hasKey (engineFiles env rest
              (findDependenciesOnce env code st).1).2.dependencies r = true := by
            simpa [engineFiles, hjs, hc] using hk
          exact hstep.2 r hr (hrest.2 r hr hk')
      | blob b =>
        have hrest := ih st
        constructor
        · intro k hk
          simpa [engineFiles, hjs, hc] using hrest.1 k hk
        · intro r hr hk
          exact hrest.2 r hr (by simpa [engineFiles, hjs, hc] using hk)
    · have hrest := ih st
      constructor
      · intro k hk
        simpa [engineFiles, hjs] using hrest.1 k hk
      · intro r hr hk
        exact hrest.2 r hr (by simpa [engineFiles, hjs] using hk)

/-- The engine rewrites file contents but never adds or removes file keys. -/
theorem engineFiles_keys (env : Env) :
    ∀ (l : List (String × SFile)) (st : EngSt),
      Obj.keys (engineFiles env l st).1 = Obj.keys l := by
  intro l
  induction l with
  | nil => intro st; rfl
  | cons hd rest ih =>
    intro st
    obtain ⟨k₀, f₀⟩ := hd
    by_cases hjs : k₀.endsWith ".js"
    · cases hc : f₀.contents with
      | str code =>
        simp only [engineFiles, hjs, hc, if_pos, Obj.keys, List.map_cons]
        rw [List.cons.injEq]
        exact ⟨rfl, ih _⟩
      | blob b =>
        simp only [engineFiles, hjs, hc, if_pos, Obj.keys, List.map_cons]
        rw [List.cons.injEq]
        exact ⟨rfl, ih _⟩
    · simp only [engineFiles, hjs, Bool.false_eq_true, if_false, Obj.keys, List.map_cons]
      rw [List.cons.injEq]
      exact ⟨rfl, ih _⟩

/-- `_handleFindDependenciesAsync` is a no-op while a resolution is already
running (the guard returns before touching any state). -/
theorem handleFindDependencies_noop (env : Env) (s : Session)
    (h : s.isResolving = true) : handleFindDependencies env s = s := by
  unfold handleFindDependencies
  cases hs : env.sdkSupports s.sdkVersion .arbitraryImports with
  | false => simp
  | true => simp [h]

theorem handleFindDependencies_sdkVersion (env : Env) (s : Session) :
    (handleFindDependencies env s).sdkVersion = s.sdkVersion := by
  unfold handleFindDependencies
  cases hs : env.sdkSupports s.sdkVersion .arbitraryImports with
  | false => simp
  | true =>
    cases hr : s.isResolving with
    | true => simp
    | false => simp

theorem handleFindDependencies_isResolving (env : Env) (s : Session)
    (h : s.isResolving = false) :
    (handleFindDependencies env s).isResolving = false := by
  unfold handleFindDependencies
  cases hs : env.sdkSupports s.sdkVersion .arbitraryImports with
  | false => simpa using h
  | true =>
    cases hr : s.isResolving with
    | true => rw [h] at hr; cases hr
    | false => simp

theorem handleFindDependencies_hasKey (env : Env) (s : Session) (k : String) :
    Obj.hasKey (handleFindDependencies env s).files k = Obj.hasKey s.files k := by
  unfold handleFindDependencies
  cases hs : env.sdkSupports s.sdkVersion .arbitraryImports with
  | false => simp
  | true =>
    cases hr : s.isResolving with
    | true => simp
    | false =>
      simp only [Bool.not_true, Bool.false_eq_true, if_false, if_pos rfl]
      exact Obj.hasKey_eq_of_keys_eq _ _ k
        (engineFiles_keys env s.files ⟨s.dependencies, s.loadingMessage⟩)


/-! ## Concrete fixtures for witnesses and counterexamples -/

/-- A concrete environment: the feature table enables MULTIPLE_FILES only,
uploads return bucket URLs, scans find nothing, fetches echo the requested
name, rewrites succeed. -/
def envA : Env :=
  { sdkSupports := fun _ f =>
      match f with
      | .multipleFiles => true
      | .arbitraryImports => false
    uploadAsset := fun b => S3_BUCKET_URL ++ "/asset/" ++ toString b
    uploadCode := fun c => S3_BUCKET_URL ++ "/code/" ++ toString c.length
    scan := fun _ => .ok []
    fetchDep := fun n v => ⟨n, v.getD "1.0.0", []⟩
    rewrite := fun c _ _ => .ok c }

/-- A variant with every feature enabled. -/
def envB : Env := { envA with sdkSupports := fun _ _ => true }

/-- A variant with every feature disabled. -/
def envC : Env := { envA with sdkSupports := fun _ _ => false }

/-- A freshly constructed session around the given file map. -/
def mkBaseSession (files : Obj SFile) : Session :=
  { files := files
    s3code := []
    diff := []
    s3url := []
    sdkVersion := defaultSDKVersion
    channel := "testChannel"
    name := none
    description := none
    dependencies := []
    initialState := ⟨stripIds files, none, none, [], defaultSDKVersion⟩
    isResolving := false
    loadingMessage := none }

/-! ## Claim theorems -/

/-- C1 (amended): when the size estimate of the `{diff, s3url}` payload
exceeds 31,500 bytes, the snapshot step spills the largest remaining file,
recomputes after each spill, and stops only when the estimate no longer
exceeds the bound or no spill candidates remain — so the published payload is
guaranteed to be within 31,500 bytes only when candidates remain unspilled;
when the candidates run out the payload can still exceed the bound. -/
theorem claim_C1_amended (env : Env) (channel : String) (files : Obj SFile)
    (led : Ledger) :
    (handleUploadCodeCore env channel files led).2 = [] ∨
      calcPayloadSize channel (handleUploadCodeCore env channel files led).1.diff
        (handleUploadCodeCore env channel files led).1.s3url ≤ MAX_PUBNUB_SIZE := by
  unfold handleUploadCodeCore
  exact spillGo_post env channel files _ _

def longChannel : String := String.mk (List.replicate 32000 'a')

def c1Session : Session :=
  { mkBaseSession [("app.js", ⟨1, .code, .str "hi"⟩)] with channel := longChannel }

/-- C1 (counterexample): with MULTIPLE_FILES on and every upload succeeding,
a session whose (user-supplied, merely length-validated) channel id is 32,000
characters publishes a CODE payload whose size estimate, which by the spec is
taken over the channel and the payload, exceeds 31,500 bytes: the claim that
the payload never exceeds the bound is false — the spill loop runs out of
candidates and stops while still above it. -/
theorem claim_C1_counterexample :
    publishNotDebounced envA c1Session =
      .ok (handleUploadCode envA c1Session,
        some (.codeMulti (handleUploadCode envA c1Session).diff
          (handleUploadCode envA c1Session).s3url
          (handleUploadCode envA c1Session).sdkVersion)) ∧
    MAX_PUBNUB_SIZE <
      calcPayloadSize c1Session.channel (handleUploadCode envA c1Session).diff
        (handleUploadCode envA c1Session).s3url := by
  constructor
  · rfl
  · have h1 : c1Session.channel.length = 32000 := by
      show (String.mk (List.replicate 32000 'a')).length = 32000
      show (List.replicate 32000 'a').length = 32000
      rw [List.length_replicate]
    have h2 := calcPayloadSize_ge_channel c1Session.channel
      (handleUploadCode envA c1Session).diff (handleUploadCode envA c1Session).s3url
    unfold MAX_PUBNUB_SIZE
    omega

/-- C2 (amended): the bundler fetch loop always terminates after at most 31
poll attempts (not 30: the counter is compared against 30 only after having
been incremented for the fetch, so 31 fetches happen before the timeout); as
long as the bundler keeps answering pending it re-polls, raising the timeout
error after the 31st pending answer, and a terminal (non-pending) response at
any attempt within the cap is returned as is. -/
theorem claim_C2_amended (resp : Nat → BundlerResp) :
    (tryFetchDependency resp).2 ≤ 31 ∧
    ((∀ j, ∃ r, resp j = .ok true r) →
      tryFetchDependency resp = (.error "Request timed out", 31)) ∧
    (∀ k, k ≤ 30 → (∃ r, resp k = .ok false r) →
      (∀ j, j < k → ∃ r, resp j = .ok true r) →
      ∃ r, resp k = .ok false r ∧ tryFetchDependency resp = (.ok r, k + 1)) := by
  refine ⟨?_, ?_, ?_⟩
  · have h := tryFetchGo_attempts_le resp 0
    simpa using h
  · intro hp
    have h := tryFetchGo_timeout resp 0 hp
    simpa using h
  · intro k hk ht hp
    have h := tryFetchGo_first_terminal resp 0 k hk (Nat.zero_le k) ht hp
    simpa using h

def allPendingResp : Nat → BundlerResp := fun _ => .ok true ⟨"left-pad", "1.0.0", []⟩

/-- C2 (counterexample): against a bundler that always answers pending, the
loop performs 31 poll attempts before raising the timeout, refuting the
30-attempt cap as stated. -/
theorem claim_C2_counterexample :
    (tryFetchDependency allPendingResp).2 = 31 ∧
    ¬ ((tryFetchDependency allPendingResp).2 ≤ 30) := by
  have h := tryFetchGo_timeout allPendingResp 0
    (fun _j => ⟨⟨"left-pad", "1.0.0", []⟩, rfl⟩)
  unfold tryFetchDependency
  rw [h]
  omega

/-- C2 (witness): the amended theorem applied to the all-pending bundler. -/
theorem claim_C2_witness :
    tryFetchDependency allPendingResp = (.error "Request timed out", 31) :=
  (claim_C2_amended allPendingResp).2.1
    (fun _j => ⟨⟨"left-pad", "1.0.0", []⟩, rfl⟩)

/-- C3 (amended): a dispatch invokes listeners in registration order — when
no listener removes a subscription during the dispatch every registered
listener is invoked exactly once in order, and in general the invoked
sequence is a subsequence of the registration order (never reordered or
duplicated) — but removing the currently running or an earlier listener
shifts the live array under the iteration index and skips the next
not-yet-invoked listener. -/
theorem claim_C3_amended (arr : List Listener) :
    ((∀ l ∈ arr, l.removes = []) → dispatch arr = arr.map (·.lid)) ∧
    (dispatch arr).Sublist (arr.map (·.lid)) := by
  constructor
  · intro h
    unfold dispatch
    rw [dispatchGo_no_removals arr.length arr 0 h]
    rw [List.drop_zero]
    apply List.take_of_length_le
    rw [List.length_map]
  · have h := dispatchGo_sublist arr.length arr 0
    rw [List.drop_zero] at h
    exact h

def c3Listeners : List Listener := [⟨0, [0]⟩, ⟨1, []⟩]

/-- C3 (counterexample): listener 0 removes its own subscription while being
invoked; the later-registered listener 1 is then skipped in the same
dispatch, refuting the claim that no later listener is skipped. -/
theorem claim_C3_counterexample :
    dispatch c3Listeners = [0] ∧ ¬ (1 ∈ dispatch c3Listeners) := by
  decide

def c3Plain : List Listener := [⟨5, []⟩, ⟨7, []⟩]

/-- C3 (witness): the amended theorem applied to two removal-free
listeners. -/
theorem claim_C3_witness : dispatch c3Plain = [5, 7] :=
  (claim_C3_amended c3Plain).1 (by decide)


/-- C4: `isSaved` holds exactly when `initialState` deep-equals the current
`{files, name, description, dependencies, sdkVersion}` tuple; in particular
it is true immediately after construction (the constructor snapshots
`initialState` with `cloneDeep`) and immediately after a successful
`saveAsync` (which re-snapshots before returning). -/
theorem claim_C4 (opts : Options) (freshId : String) (s t : Session)
    (hok : construct opts freshId = .ok s)
    (hf : (Obj.keys opts.files).Nodup)
    (hd : (Obj.keys (opts.dependencies.getD [])).Nodup)
    (htf : (Obj.keys t.files).Nodup) (htd : (Obj.keys t.dependencies).Nodup) :
    isSaved s = true ∧
    isSaved (applySaveSuccess t) = true ∧
    (isSaved t = true ↔ isEqualState t.initialState (currentTuple t) = true) := by
  refine ⟨?_, ?_, Iff.rfl⟩
  · unfold construct at hok
    by_cases hc : (opts.sessionId.getD freshId).length < MIN_CHANNEL_LENGTH
    · rw [if_pos hc] at hok
      cases hok
    · rw [if_neg hc] at hok
      injection hok with hs
      subst hs
      show isEqualState
        ⟨stripIds opts.files, opts.name, opts.description,
          opts.dependencies.getD [], opts.sdkVersion.getD defaultSDKVersion⟩
        ⟨stripIds opts.files, opts.name, opts.description,
          opts.dependencies.getD [], opts.sdkVersion.getD defaultSDKVersion⟩ = true
      apply isEqualState_refl
      · show (Obj.keys (stripIds opts.files)).Nodup
        rw [keys_stripIds]
        exact hf
      · exact hd
  · show isEqualState
      ⟨stripIds t.files, t.name, t.description, t.dependencies, t.sdkVersion⟩
      ⟨stripIds t.files, t.name, t.description, t.dependencies, t.sdkVersion⟩ = true
    apply isEqualState_refl
    · show (Obj.keys (stripIds t.files)).Nodup
      rw [keys_stripIds]
      exact htf
    · exact htd

def c4Opts : Options :=
  { files := [("app.js", ⟨1, .code, .str "hello"⟩)]
    sdkVersion := none
    verbose := false
    sessionId := some "channel"
    snackId := none
    name := some "snack"
    description := none
    dependencies := none
    authorizationToken := none }

def c4Constructed : Session :=
  { files := c4Opts.files
    s3code := []
    diff := []
    s3url := []
    sdkVersion := defaultSDKVersion
    channel := "channel"
    name := some "snack"
    description := none
    dependencies := []
    initialState := ⟨stripIds c4Opts.files, some "snack", none, [], defaultSDKVersion⟩
    isResolving := false
    loadingMessage := none }

/-- C4 (witness): a concretely constructed session is saved, and stays saved
through a successful save. -/
theorem claim_C4_witness :
    isSaved c4Constructed = true ∧ isSaved (applySaveSuccess c4Constructed) = true :=
  ⟨(claim_C4 c4Opts "fresh1" c4Constructed c4Constructed (by rfl) (by decide)
      (by decide) (by decide) (by decide)).1,
    (claim_C4 c4Opts "fresh1" c4Constructed c4Constructed (by rfl) (by decide)
      (by decide) (by decide) (by decide)).2.1⟩

/-- C5 (amended): after `sendCodeAsync(f)` the session's file map has exactly
the keys of `f`; a key whose entry differs by reference from the session's
current entry is overwritten with `f`'s entry, asset blobs uploaded inline,
but an entry that is reference-equal to the current one is left untouched —
in particular an asset blob already held by the session is not uploaded; a
debounced publish is then scheduled and a state event emitted. -/
theorem claim_C5_amended (env : Env) (s : Session) (files : Obj SFile)
    (hnd : (Obj.keys files).Nodup) :
    (∀ k, Obj.hasKey (sendCode env s files).1.files k = Obj.hasKey files k) ∧
    (∀ k f, Obj.lookup files k = some f →
      Obj.lookup (sendCode env s files).1.files k =
        some (match Obj.lookup s.files k with
          | some g => if g.oid = f.oid then g else uploadIfAssetBlob env f
          | none => uploadIfAssetBlob env f)) ∧
    (sendCode env s files).2 = [.schedulePublish, .stateEvent] := by
  have hfold := sendCode_fold_lookup env files hnd
    (s.files.filter (fun kv => Obj.hasKey files kv.1))
  refine ⟨?_, ?_, rfl⟩
  · intro k
    show Obj.hasKey (files.foldl (fun acc kv => sendCodeStep env acc kv.1 kv.2)
      (s.files.filter (fun kv => Obj.hasKey files kv.1))) k = Obj.hasKey files k
    rw [Obj.hasKey, Obj.hasKey, hfold k]
    cases hl : Obj.lookup files k with
    | none =>
      rw [Obj.lookup_filter s.files (fun k' => Obj.hasKey files k') k]
      have hhk : Obj.hasKey files k = false := by
        unfold Obj.hasKey
        rw [hl]
        rfl
      rw [hhk]
      rfl
    | some f =>
      cases hacc : Obj.lookup (s.files.filter (fun kv => Obj.hasKey files kv.1)) k with
      | none => rfl
      | some g =>
        by_cases ho : g.oid = f.oid
        · simp [ho]
        · simp [ho]
  · intro k f hf
    show Obj.lookup (files.foldl (fun acc kv => sendCodeStep env acc kv.1 kv.2)
        (s.files.filter (fun kv => Obj.hasKey files kv.1))) k = _
    rw [hfold k, hf]
    have hhk : Obj.hasKey files k = true := by
      unfold Obj.hasKey
      rw [hf]
      rfl
    rw [Obj.lookup_filter s.files (fun k' => Obj.hasKey files k') k, hhk, if_pos rfl]
    cases hsl : Obj.lookup s.files k with
    | none => rfl
    | some g =>
      by_cases ho : g.oid = f.oid
      · simp [ho]
      · simp [ho]

def c5File : SFile := ⟨1, .asset, .blob 0⟩

def c5Session : Session := mkBaseSession [("a", c5File)]

/-- C5 (counterexample): sending a file map whose entry for `a` is the very
object the session already holds (as happens when the constructor's file map
is re-sent) leaves the asset blob in place: the entry is not overwritten and
the blob is never uploaded, so its contents is not the object-store URL the
claim promises. -/
theorem claim_C5_counterexample :
    Obj.lookup (sendCode envA c5Session [("a", c5File)]).1.files "a" = some c5File ∧
    c5File.contents ≠ .str (envA.uploadAsset 0) := by
  constructor
  · rfl
  · intro h
    cases h

/-- C5 (witness): the amended theorem applied to a fresh session and a
one-file map. -/
theorem claim_C5_witness :
    Obj.hasKey (sendCode envA (mkBaseSession [])
      [("b.js", ⟨2, .code, .str "x"⟩)]).1.files "b.js" = true := by
  have h := (claim_C5_amended envA (mkBaseSession [])
    [("b.js", ⟨2, .code, .str "x"⟩)] (by decide)).1 "b.js"
  rw [h]
  rfl


/-- C6 (spec-modelled): the import scanner maps every recognized static
specifier of an import, export-from or require form to the semver of its trailing
comment (none when absent); every rejected form — `require` with zero or
several arguments, a numeric, identifier or interpolated-template argument,
an absolute-path specifier or a specifier containing a newline — contributes
nothing to the output and never raises (the scanner is a total function); on
the scenario-3 input the output is exactly
base64 to 1.2.3, lodash/debounce to 2.3.4 and react-redux to null, and the
invalid-requires test input yields the empty map. -/
theorem claim_C6 :
    (∀ (acc : Obj (Option String)) (st : Stmt),
      rejectedForm st = true → scanStep acc st = acc) ∧
    findModuleDependencies scanScenarioInput =
      [("base64", some "1.2.3"), ("lodash/debounce", some "2.3.4"),
        ("react-redux", none)] ∧
    findModuleDependencies invalidRequiresInput = [] := by
  refine ⟨?_, by rfl, by rfl⟩
  intro acc st h
  cases st with
  | importDecl s c =>
    have h' : (strStartsWith s "/" || strHasNewline s) = true := h
    have hspec : specOk s = false := by
      unfold specOk
      rw [Bool.or_eq_true] at h'
      rcases h' with h1 | h1
      · rw [h1]
        simp
      · rw [h1]
        simp
    simp [scanStep, hspec]
  | exportFrom s c =>
    have h' : (strStartsWith s "/" || strHasNewline s) = true := h
    have hspec : specOk s = false := by
      unfold specOk
      rw [Bool.or_eq_true] at h'
      rcases h' with h1 | h1
      · rw [h1]
        simp
      · rw [h1]
        simp
    simp [scanStep, hspec]
  | requireCall args c =>
    cases args with
    | nil => rfl
    | cons a rest =>
      cases rest with
      | cons b rest2 => rfl
      | nil =>
        cases hspec : argSpecifier a with
        | none => simp [scanStep, hspec]
        | some s =>
          have h' : (match argSpecifier a with
            | none => true
            | some s => strStartsWith s "/" || strHasNewline s) = true := h
          rw [hspec] at h'
          have hso : specOk s = false := by
            unfold specOk
            rw [Bool.or_eq_true] at h'
            rcases h' with h1 | h1
            · rw [h1]
              simp
            · rw [h1]
              simp
          simp [scanStep, hspec, hso]
  | otherStmt => cases h

/-- C6 (witness): a zero-argument `require` is rejected and is a no-op on a
non-empty accumulator. -/
theorem claim_C6_witness :
    scanStep [("base64", some "1.2.3")] (.requireCall [] none) =
      [("base64", some "1.2.3")] :=
  claim_C6.1 [("base64", some "1.2.3")] (.requireCall [] none) (by decide)

/-- C7: a run of the dependency resolution engine never adds the reserved
module names react, react-native and expo to `session.dependencies` — they
are filtered both from the modules scanned out of user code and from the
peer-dependency maps — and every pre-existing dependency key is preserved
(the commit merges, never deletes). The fetched records are assumed to echo
the requested module name, as the bundler protocol and both fallback paths
of `_maybeFetchDependencyAsync` do. -/
theorem claim_C7 (env : Env) (s : Session)
    (hecho : ∀ n v, (env.fetchDep n v).name = n) :
    (∀ k, Obj.hasKey s.dependencies k = true →
      Obj.hasKey (handleFindDependencies env s).dependencies k = true) ∧
    (∀ r, reservedModules.contains r = true →
      Obj.hasKey (handleFindDependencies env s).dependencies r = true →
      Obj.hasKey s.dependencies r = true) := by
  unfold handleFindDependencies
  cases hs : env.sdkSupports s.sdkVersion .arbitraryImports with
  | false =>
    simp only [Bool.not_false, if_pos rfl]
    exact ⟨fun k hk => hk, fun r _ hk => hk⟩
  | true =>
    cases hr : s.isResolving with
    | true =>
      simp only [Bool.not_true, Bool.false_eq_true, if_false, if_pos rfl]
      exact ⟨fun k hk => hk, fun r _ hk => hk⟩
    | false =>
      simp only [Bool.not_true, Bool.false_eq_true, if_false]
      have h := engineFiles_deps env hecho s.files ⟨s.dependencies, s.loadingMessage⟩
      exact ⟨h.1, h.2⟩

def c7Session : Session :=
  { mkBaseSession [("app.js", ⟨1, .code, .str "x"⟩)] with
      dependencies := [("react", "16.0.0"), ("left-pad", "1.0.0")] }

/-- C7 (witness): a pre-existing `react` entry survives an engine run under
the all-features environment. -/
theorem claim_C7_witness :
    Obj.hasKey (handleFindDependencies envB c7Session).dependencies "react" = true :=
  (claim_C7 envB c7Session (fun _n _v => rfl)).1 "react" (by decide)

/-- C8: the undebounced publish never transmits a CODE envelope while
`loadingMessage` is non-null or while `isResolving` is true: with a loading
message set it publishes a LOADING_MESSAGE envelope carrying that message
instead of code, and with `isResolving` true (and no loading message) it
returns without publishing anything — the dependency-engine call it makes
first is itself a guarded no-op in that state. -/
theorem claim_C8 (env : Env) (s : Session) :
    (∀ m, s.loadingMessage = some m →
      publishNotDebounced env s = .ok (s, some (.loadingMsg m))) ∧
    (s.loadingMessage = none → s.isResolving = true →
      publishNotDebounced env s = .ok (s, none)) := by
  constructor
  · intro m hm
    unfold publishNotDebounced
    rw [hm]
  · intro hm hr
    unfold publishNotDebounced
    rw [hm]
    have hnoop : (if env.sdkSupports s.sdkVersion .arbitraryImports
        then handleFindDependencies env s else s) = s := by
      cases hs : env.sdkSupports s.sdkVersion .arbitraryImports with
      | false => rw [if_neg (by simp)]
      | true =>
        rw [if_pos rfl]
        exact handleFindDependencies_noop env s hr
    show (if (if env.sdkSupports s.sdkVersion .arbitraryImports
        then handleFindDependencies env s else s).isResolving then _ else _) = _
    rw [hnoop, if_pos hr]

def c8Loading : Session :=
  { mkBaseSession [] with loadingMessage := some "Installing dependencies" }

def c8Resolving : Session := { mkBaseSession [] with isResolving := true }

/-- C8 (witness): with a loading message set the publish sends exactly the
LOADING_MESSAGE envelope, and with a resolution in flight it sends
nothing. -/
theorem claim_C8_witness :
    publishNotDebounced envA c8Loading =
      .ok (c8Loading, some (.loadingMsg "Installing dependencies")) ∧
    publishNotDebounced envA c8Resolving = .ok (c8Resolving, none) :=
  ⟨(claim_C8 envA c8Loading).1 "Installing dependencies" rfl,
    (claim_C8 envA c8Resolving).2 rfl rfl⟩

/-- C9: when ARBITRARY_IMPORTS is supported, an invocation of the dependency
engine with a resolution already running is a complete no-op (so at most one
resolution executes at a time), and otherwise — on every exit path: normal
completion, per-file parse failure and fetch or rewrite failure alike, all of
which flow through the same `finally` — it ends with `isResolving` false and
`loadingMessage` cleared. -/
theorem claim_C9 (env : Env) (s : Session)
    (hsup : env.sdkSupports s.sdkVersion .arbitraryImports = true) :
    (s.isResolving = true → handleFindDependencies env s = s) ∧
    (s.isResolving = false →
      (handleFindDependencies env s).isResolving = false ∧
      (handleFindDependencies env s).loadingMessage = none) := by
  constructor
  · exact handleFindDependencies_noop env s
  · intro hr
    unfold handleFindDependencies
    rw [hsup]
    simp [hr]

def c9Session : Session := mkBaseSession [("app.js", ⟨1, .code, .str "x"⟩)]

def c9Resolving : Session := { c9Session with isResolving := true }

/-- C9 (witness): re-entry is a no-op on a resolving session, and a run from
an idle session ends released and with no loading message. -/
theorem claim_C9_witness :
    handleFindDependencies envB c9Resolving = c9Resolving ∧
    (handleFindDependencies envB c9Session).isResolving = false ∧
    (handleFindDependencies envB c9Session).loadingMessage = none :=
  ⟨(claim_C9 envB c9Resolving rfl).1 rfl,
    (claim_C9 envB c9Session rfl).2 rfl⟩

/-- C10: when the SDK version does not support MULTIPLE_FILES, the
undebounced publish reads `files['app.js'].contents` without a guard: with
`app.js` present it publishes the legacy payload built from that entry, and
for any file map lacking `app.js` it raises instead of sending a legacy
payload. -/
theorem claim_C10 (env : Env) (s : Session)
    (hmf : env.sdkSupports s.sdkVersion .multipleFiles = false)
    (hlm : s.loadingMessage = none) (hir : s.isResolving = false) :
    (Obj.hasKey s.files "app.js" = false →
      publishNotDebounced env s = .error legacyTypeError) ∧
    (Obj.hasKey s.files "app.js" = true →
      ∃ s1 f, Obj.lookup s1.files "app.js" = some f ∧
        publishNotDebounced env s =
          .ok (s1, some (.codeLegacy f.contents s1.sdkVersion))) := by
  set s1 := if env.sdkSupports s.sdkVersion .arbitraryImports
    then handleFindDependencies env s else s with hs1
  have hs1res : s1.isResolving = false := by
    rw [hs1]
    cases hai : env.sdkSupports s.sdkVersion .arbitraryImports with
    | false => rw [if_neg (by simp)]; exact hir
    | true =>
      rw [if_pos rfl]
      exact handleFindDependencies_isResolving env s hir
  have hs1sdk : s1.sdkVersion = s.sdkVersion := by
    rw [hs1]
    cases hai : env.sdkSupports s.sdkVersion .arbitraryImports with
    | false => rw [if_neg (by simp)]
    | true =>
      rw [if_pos rfl]
      exact handleFindDependencies_sdkVersion env s
  have hs1key : Obj.hasKey s1.files "app.js" = Obj.hasKey s.files "app.js" := by
    rw [hs1]
    cases hai : env.sdkSupports s.sdkVersion .arbitraryImports with
    | false => rw [if_neg (by simp)]
    | true =>
      rw [if_pos rfl]
      exact handleFindDependencies_hasKey env s "app.js"
  have hpub : publishNotDebounced env s =
      match Obj.lookup s1.files "app.js" with
      | some f => .ok (s1, some (.codeLegacy f.contents s1.sdkVersion))
      | none => .error legacyTypeError := by
    unfold publishNotDebounced
    rw [hlm]
    show (if s1.isResolving then _
      else if env.sdkSupports s1.sdkVersion .multipleFiles then _ else _) = _
    rw [hs1res, if_neg (by simp), hs1sdk, hmf, if_neg (by simp)]
  constructor
  · intro habs
    rw [hpub]
    have hnone : Obj.lookup s1.files "app.js" = none := by
      have hk : Obj.hasKey s1.files "app.js" = false := by rw [hs1key]; exact habs
      unfold Obj.hasKey at hk
      cases hl : Obj.lookup s1.files "app.js" with
      | none => rfl
      | some f => rw [hl] at hk; cases hk
    rw [hnone]
  · intro hpres
    have hk : Obj.hasKey s1.files "app.js" = true := by rw [hs1key]; exact hpres
    unfold Obj.hasKey at hk
    cases hl : Obj.lookup s1.files "app.js" with
    | none => rw [hl] at hk; cases hk
    | some f =>
      refine ⟨s1, f, hl, ?_⟩
      rw [hpub, hl]

def c10Session : Session := mkBaseSession [("index.js", ⟨1, .code, .str "x"⟩)]

/-- C10 (witness): a legacy-mode session without `app.js` makes the publish
raise. -/
theorem claim_C10_witness :
    publishNotDebounced envC c10Session = .error legacyTypeError :=
  (claim_C10 envC c10Session rfl rfl rfl).1 rfl


end Snack
